import Mathlib

/-!
# Verification of the mcerv command-tree dispatcher and interactive context engine

Shallow embedding of the command dispatcher of the `mcerv` repository:
the shell-style tokenizer used by the REPL (the external `shlex` crate,
modelled from the specification), the command/sub-command/option tree of
`src/command.rs` and `src/system/command.rs`, the deepest-match resolver,
the dispatcher, the completion engine, the option-value lookup, the
dynamic `select` sub-tree of `src/state.rs` / `src/system/state.rs`, and
the batch mod-update flow of `src/lib.rs` with `src/network/mod.rs`.
-/

namespace Mcerv

/-- Decidable equality on `Except`, used to state and decide concrete
outcomes of the fallible operations. -/
instance instDecEqExcept {ε α : Type} [DecidableEq ε] [DecidableEq α] :
    DecidableEq (Except ε α) := fun a b =>
  match a, b with
  | .ok x, .ok y =>
    if h : x = y then .isTrue (by rw [h])
    else .isFalse (by intro hc; cases hc; exact h rfl)
  | .error x, .error y =>
    if h : x = y then .isTrue (by rw [h])
    else .isFalse (by intro hc; cases hc; exact h rfl)
  | .ok _, .error _ => .isFalse (by intro hc; cases hc)
  | .error _, .ok _ => .isFalse (by intro hc; cases hc)

/-! ## Tokenizer (the `shlex` crate, modelled from the spec)

The repository calls `shlex::split` and `shlex::try_join`; the crate's code
is not part of the repository.  `tokenize` and `join` below are modelled
from the spec, section 4.1: splitting on unquoted whitespace, single and
double quotes as literal spans, backslash escaping the following character
outside single quotes, failure on an unterminated quote or dangling escape;
`join` quotes any token containing whitespace, a quote character or another
shell metacharacter (single-quote style, as exercised by the repository's
`test_set_jar` test in `src/system/config.rs`).
-/

/-- Quote, double-quote and backslash characters, written by code so that no
quote literal appears in the source text of this file. -/
def singleQuoteChar : Char := Char.ofNat 39

def doubleQuoteChar : Char := Char.ofNat 34

def backslashChar : Char := Char.ofNat 92

/-- Modelled from the spec: `ParseError::UnterminatedQuote` and
`ParseError::DanglingEscape` of the tokenizer contract (spec section 4.1). -/
inductive ParseError where
  | unterminatedQuote
  | danglingEscape
deriving DecidableEq, Repr

/-- Scanner mode: outside quotes, inside a single-quoted span, inside a
double-quoted span, or just after a backslash (remembering the mode the
escape started from). -/
inductive ScanMode where
  | normal
  | inSingle
  | inDouble
  | escNormal
  | escDouble
deriving DecidableEq, Repr

/-- Modelled from the spec: the character-level scanner behind `tokenize`.
`curr = none` means no token has started at this position; `curr = some t`
is the partial token accumulated so far. -/
def tokAux : ScanMode → Option (List Char) → List Char → Except ParseError (List (List Char))
  | .normal, none, [] => .ok []
  | .normal, some t, [] => .ok [t]
  | .inSingle, _, [] => .error .unterminatedQuote
  | .inDouble, _, [] => .error .unterminatedQuote
  | .escNormal, _, [] => .error .danglingEscape
  | .escDouble, _, [] => .error .danglingEscape
  | .normal, curr, c :: cs =>
    if c = singleQuoteChar then tokAux .inSingle (some (curr.getD [])) cs
    else if c = doubleQuoteChar then tokAux .inDouble (some (curr.getD [])) cs
    else if c = backslashChar then tokAux .escNormal curr cs
    else if c.isWhitespace then
      match curr with
      | none => tokAux .normal none cs
      | some t => (tokAux .normal none cs).map (t :: ·)
    else tokAux .normal (some (curr.getD [] ++ [c])) cs
  | .inSingle, curr, c :: cs =>
    if c = singleQuoteChar then tokAux .normal curr cs
    else tokAux .inSingle (some (curr.getD [] ++ [c])) cs
  | .inDouble, curr, c :: cs =>
    if c = doubleQuoteChar then tokAux .normal curr cs
    else if c = backslashChar then tokAux .escDouble curr cs
    else tokAux .inDouble (some (curr.getD [] ++ [c])) cs
  | .escNormal, curr, c :: cs => tokAux .normal (some (curr.getD [] ++ [c])) cs
  | .escDouble, curr, c :: cs => tokAux .inDouble (some (curr.getD [] ++ [c])) cs

/-- Modelled from the spec: `tokenize(line)`, the model of `shlex::split`
(`split` returns `None` exactly where `tokenize` returns an error). -/
def tokenize (line : String) : Except ParseError (List String) :=
  (tokAux .normal none line.data).map (fun ts => ts.map (fun t => String.mk t))

/-- Characters that survive joining unquoted (conservative safe set:
alphanumerics and a few plain punctuation characters). -/
def isSafeChar (c : Char) : Bool :=
  c.isAlphanum || c = '+' || c = '-' || c = '_' || c = '=' || c = '/' ||
  c = ':' || c = '.' || c = ',' || c = '@' || c = '%'

/-- Modelled from the spec: a token is quoted when re-joining if it is empty
or contains any character outside the safe set (whitespace, quotes and
metacharacters are all unsafe). -/
def needsQuoting (t : List Char) : Bool := t.isEmpty || t.any (fun c => !isSafeChar c)

/-- Single-quote escaping: an embedded quote is written as
close-quote, escaped quote, reopen-quote. -/
def escapeSingle (t : List Char) : List Char :=
  t.flatMap (fun c =>
    if c = singleQuoteChar then
      [singleQuoteChar, backslashChar, singleQuoteChar, singleQuoteChar]
    else [c])

/-- Modelled from the spec: quoting of one token on re-join
(single-quote style, as in the repository's `test_set_jar` test). -/
def quoteToken (t : List Char) : List Char :=
  if needsQuoting t then singleQuoteChar :: (escapeSingle t ++ [singleQuoteChar]) else t

/-- Character-level join: quoted tokens separated by single spaces. -/
def joinTokens : List (List Char) → List Char
  | [] => []
  | [t] => quoteToken t
  | t :: t2 :: ts => quoteToken t ++ ' ' :: joinTokens (t2 :: ts)

/-- Modelled from the spec: `join(tokens)`, the model of `shlex::try_join`. -/
def join (tokens : List String) : String :=
  String.mk (joinTokens (tokens.map String.data))

/-- Rust `str::starts_with`, stated over the character lists so that the
kernel can evaluate it (`String.startsWith` is compiled code in Lean). -/
def strStartsWith (s p : String) : Bool := p.data.isPrefixOf s.data

/-- Rust `line.trim().is_empty()`: true exactly when every character of the
line is whitespace. -/
def trimIsEmpty (line : String) : Bool := line.data.all Char.isWhitespace

/-! ## The command tree (`src/command.rs` and `src/system/command.rs`)

The two iterations of the interactive module declare identical `Command`,
`SubCommand` and `CommandOption` types; handlers are function pointers,
embedded here as values of an abstract handler type `H` (looked up by
identity, exactly as the tree stores the reference directly). -/

structure CommandOption where
  name : String
  help : String
deriving DecidableEq, Repr

inductive SubCommand (H : Type) : Type where
  | mk (name : String) (subCommands : List (SubCommand H)) (options : List CommandOption)
      (help : String) (handler : Option H)

def SubCommand.name {H : Type} : SubCommand H → String
  | .mk n _ _ _ _ => n

def SubCommand.subCommands {H : Type} : SubCommand H → List (SubCommand H)
  | .mk _ s _ _ _ => s

def SubCommand.options {H : Type} : SubCommand H → List CommandOption
  | .mk _ _ o _ _ => o

def SubCommand.help {H : Type} : SubCommand H → String
  | .mk _ _ _ h _ => h

def SubCommand.handler {H : Type} : SubCommand H → Option H
  | .mk _ _ _ _ hd => hd

structure Command (H : Type) where
  name : String
  subCommands : List (SubCommand H)
  options : List CommandOption
  help : String
  handler : Option H

/-- `CommandManager::find_deepest_subcommand`: find the first sub-command in
declaration order whose name equals any token in the full token list, then
repeat on its children until no child matches, returning the last matched
node.  The Rust `find` plus `while let` loop is fused into one recursion:
scanning the sibling list for the first match and, on a match, walking into
its children (none there means the node itself is the deepest match). -/
def find_deepest_subcommand {H : Type} :
    List (SubCommand H) → List String → Option (SubCommand H)
  | [], _ => none
  | SubCommand.mk n subs opts hp hd :: rest, tokens =>
    if tokens.contains n then
      some (match find_deepest_subcommand subs tokens with
            | none => SubCommand.mk n subs opts hp hd
            | some d => d)
    else find_deepest_subcommand rest tokens

/-- The token-level tail of `CommandManager::execute` (identical in both
iterations): top-level lookup by exact equality with `tokens[0]`, the
deepest-match walk, and the handler fallback `subcommand.handler.or(command.handler)`.
The outer `Option` models the Rust panic on `tokens[0]` when the token list
is empty (`none` = panic); `.ok (h, tokens)` means handler `h` is invoked
with the full token list. -/
def dispatchTokens {H : Type} (cmds : List (Command H)) (tokens : List String) :
    Option (Except String (H × List String)) :=
  match tokens with
  | [] => none
  | t0 :: _ =>
    match cmds.find? (fun c => c.name = t0) with
    | none => some (.error ("Unknown command: " ++ t0))
    | some cmd =>
      match
        (match find_deepest_subcommand cmd.subCommands tokens with
         | some sub => sub.handler.orElse (fun _ => cmd.handler)
         | none => cmd.handler) with
      | none => some (.error "Command does not have a handler.")
      | some h => some (.ok (h, tokens))

/-- `CommandManager::execute` of `src/command.rs` (lines 715-733): tokenize,
then dispatch.  There is no empty-line guard in this iteration; the outer
`none` models the Rust panic. -/
def executeLegacy {H : Type} (cmds : List (Command H)) (line : String) :
    Option (Except String (H × List String)) :=
  match tokenize line with
  | .error _ => some (.error "Failed to parse command")
  | .ok tokens => dispatchTokens cmds tokens

/-- `CommandManager::execute` of `src/system/command.rs` (lines 1085-1107):
the same dispatch guarded by `if line.trim().is_empty() { return Ok(()) }`.
`.ok none` is the guarded no-op success, `.ok (some (h, tokens))` invokes
handler `h`. -/
def executeSystem {H : Type} (cmds : List (Command H)) (line : String) :
    Option (Except String (Option (H × List String))) :=
  if trimIsEmpty line then some (.ok none)
  else
    match tokenize line with
    | .error _ => some (.error "Failed to parse command")
    | .ok tokens => (dispatchTokens cmds tokens).map (fun r => r.map (fun p => some p))

/-! ## Option lookup (`CommandManager::get_option_value`, identical in both
iterations) -/

/-- `OptionError` of `src/command.rs` / `src/system/command.rs`. -/
inductive OptionError where
  | missingValue
  | invalidOption
deriving DecidableEq, Repr

/-- `CommandManager::get_option_value`: position of the first token equal to
`--name`; the next token is the value unless absent or itself starting with
`--`, which is `MissingValue`; no occurrence is `InvalidOption`. -/
def get_option_value (optionName : String) (tokens : List String) :
    Except OptionError String :=
  match tokens.findIdx? (fun t => t = "--" ++ optionName) with
  | none => .error .invalidOption
  | some i =>
    match tokens[i + 1]? with
    | none => .error .missingValue
    | some v => if strStartsWith v "--" then .error .missingValue else .ok v

/-! ## Completion (`Completer for CommandManager`, identical in both
iterations) -/

/-- `SmartCandidate`: the replacement word and the display description. -/
structure SmartCandidate where
  word : String
  desc : String
deriving DecidableEq, Repr

/-- Whether the last character of the sliced input is whitespace.  The Rust
code unwraps `input.chars().last()`; every call site passes a non-empty
input (the token list is non-empty), so the `none` branch is never
observable through `complete`. -/
def lastCharIsWhitespace (input : List Char) : Bool :=
  match input.getLast? with
  | some c => c.isWhitespace
  | none => false

/-- `CommandManager::suggest_subcommands`: children filtered by
last-character whitespace or name-starts-with-last-token. -/
def suggest_subcommands {H : Type} (subs : List (SubCommand H))
    (lastToken : Option String) (input : List Char) : List SmartCandidate :=
  (subs.filter (fun s =>
      lastCharIsWhitespace input ||
      (match lastToken with
       | none => true
       | some t => strStartsWith s.name t))).map
    (fun s => { word := s.name, desc := s.help })

/-- `CommandManager::suggest_options`: options filtered by last-character
whitespace or dash, or bare-name-starts-with the last token stripped of
leading dashes; options already present verbatim as `--name` are excluded. -/
def suggest_options (options : List CommandOption) (tokens : List String)
    (input : List Char) : List SmartCandidate :=
  ((options.filter (fun opt =>
      lastCharIsWhitespace input ||
      input.getLast? = some '-' ||
      (match tokens.getLast? with
       | none => true
       | some t =>
         strStartsWith opt.name (String.mk (t.data.dropWhile (fun c => c = '-')))))).filter
    (fun opt => !(tokens.contains ("--" ++ opt.name)))).map
    (fun opt => { word := "--" ++ opt.name, desc := opt.help })

/-- The `replace-from` offset: index just after the last whitespace in the
sliced input, 0 if none (`input.rfind(char::is_whitespace).map(|i| i + 1).unwrap_or(0)`).
Positions are counted in characters. -/
def completionStartPos (input : List Char) : Nat :=
  match input.reverse.findIdx? Char.isWhitespace with
  | none => 0
  | some j => input.length - j

/-- `CommandManager::complete` (the `Completer` impl, identical in both
iterations): slice the line at the cursor, tokenize with
`unwrap_or_default`, resolve the deepest node, and suggest sub-commands or
options; unknown first tokens get prefix-matched top-level commands.  The
cursor is counted in characters.  The Rust return type is
`Result<(usize, Vec<SmartCandidate>), ReadlineError>` whose body always
returns `Ok`, so the model returns the pair directly. -/
def complete {H : Type} (cmds : List (Command H)) (line : String) (pos : Nat) :
    Nat × List SmartCandidate :=
  let input := line.data.take pos
  let tokens := match tokenize (String.mk input) with
                | .ok ts => ts
                | .error _ => []
  let startPos := completionStartPos input
  match tokens with
  | [] => (0, [])
  | t0 :: _ =>
    match cmds.find? (fun c => c.name = t0) with
    | some cmd =>
      let lastSub := find_deepest_subcommand cmd.subCommands tokens
      let suggestions :=
        match lastSub with
        | some ls =>
          if ls.subCommands.isEmpty then suggest_options ls.options tokens input
          else suggest_subcommands ls.subCommands tokens.getLast? input
        | none =>
          if cmd.subCommands.isEmpty then suggest_options cmd.options tokens input
          else suggest_subcommands cmd.subCommands tokens.getLast? input
      (startPos, suggestions)
    | none =>
      (0, (cmds.filter (fun c => strStartsWith c.name t0)).map
            (fun c => { word := c.name, desc := c.help }))

/-! ## The static command tree of `src/system/command.rs` -/

/-- One tag per handler function of `src/system/command.rs`; the tree stores
the function reference directly and handlers are compared by identity. -/
inductive HandlerTag where
  | listServers
  | listMods
  | searchServerVersions
  | searchMods
  | searchModVersions
  | select
  | selected
  | setMaxMemory
  | setMinMemory
  | setJavaHome
  | addServer
  | addMod
  | generateStartScript
  | updateServer
  | checkModsSupport
  | acceptEula
  | startServer
  | exitProgram
deriving DecidableEq, Repr

/-- `CommandManager::create_commands` of `src/system/command.rs`
(lines 93-334), with handler function pointers replaced by their tags. -/
def create_commands : List (Command HandlerTag) :=
  [ { name := "list",
      subCommands :=
        [ SubCommand.mk "servers" [] [] "List the server names." (some .listServers),
          SubCommand.mk "mods" []
            [ { name := "update", help := "Whether to update the mod if available." } ]
            "List installed mods with their current versions and check for updates on Modrinth."
            (some .listMods) ],
      options := [], help := "", handler := none },
    { name := "search",
      subCommands :=
        [ SubCommand.mk "server-versions" []
            [ { name := "all", help := "List all versions, stable and unstable." },
              { name := "stable-only", help := "List only stable versions." } ]
            "List Minecraft, Fabric Loader, and Fabric Installer versions from fabric-meta."
            (some .searchServerVersions),
          SubCommand.mk "mods" []
            [ { name := "facets",
                help := "The search facets. For example, \"categories:fabric, versions:1.17.1\"." },
              { name := "index", help := "The index to sort by, e.g., \x27downloads\x27." },
              { name := "limit", help := "The maximum number of results to return." } ]
            "Search for mods on Modrinth." (some .searchMods),
          SubCommand.mk "mod-versions" []
            [ { name := "featured",
                help := "Allows to filter for featured or non-featured versions only." } ]
            "Get versions of a mod from Modrinth." (some .searchModVersions) ],
      options := [], help := "", handler := none },
    { name := "select", subCommands := [], options := [],
      help := "Select a server from the servers list to operate on.",
      handler := some .select },
    { name := "selected", subCommands := [], options := [],
      help := "Get the currently selected server.", handler := some .selected },
    { name := "set",
      subCommands :=
        [ SubCommand.mk "max-memory" [] [] "Set the maximum memory for the server."
            (some .setMaxMemory),
          SubCommand.mk "min-memory" [] [] "Set the minimum memory for the server."
            (some .setMinMemory),
          SubCommand.mk "java" [] []
            "Set the JAVA_HOME for the server. This will change the start command to use the specified Java."
            (some .setJavaHome) ],
      options := [], help := "", handler := none },
    { name := "add",
      subCommands :=
        [ SubCommand.mk "server" []
            [ { name := "game", help := "The Minecraft version." },
              { name := "loader", help := "The Fabric Loader version." },
              { name := "installer", help := "The Fabric Installer version." },
              { name := "latest-stable",
                help := "Use the latest stable versions for the unspecified." } ]
            "Download the selected versions for the server." (some .addServer),
          SubCommand.mk "mod" [] [] "Download a mod version from Modrinth." (some .addMod) ],
      options := [], help := "", handler := none },
    { name := "generate",
      subCommands :=
        [ SubCommand.mk "start-script" [] []
            "Generate a start script for the selected server." (some .generateStartScript) ],
      options := [], help := "", handler := none },
    { name := "update",
      subCommands :=
        [ SubCommand.mk "server" []
            [ { name := "game", help := "The Minecraft version." },
              { name := "loader", help := "The Fabric Loader version." },
              { name := "installer", help := "The Fabric Installer version." },
              { name := "latest-stable",
                help := "Use the latest stable versions for the unspecified." } ]
            "Update the server executable jar to the specified versions."
            (some .updateServer) ],
      options := [], help := "", handler := none },
    { name := "check",
      subCommands :=
        [ SubCommand.mk "mods-support" [] []
            "Check if the mods in the selected server have availible version for the specified game version on Modrinth."
            (some .checkModsSupport) ],
      options := [], help := "", handler := none },
    { name := "accept-eula", subCommands := [], options := [],
      help := "Accept the EULA for the selected server. This will modify the eula.txt file.",
      handler := some .acceptEula },
    { name := "start", subCommands := [], options := [],
      help := "Start the selected server.", handler := some .startServer },
    { name := "exit", subCommands := [], options := [],
      help := "Exit the program.", handler := some .exitProgram } ]

/-! ## The dynamic `select` sub-tree
(`State::update_server_names`, `src/state.rs` lines 48-83 and
`src/system/state.rs` lines 173-210, identical node construction) -/

/-- The sub-command nodes generated for the `select` command: one per
discovered server instance, with no children, no options, empty help and no
handler. -/
def select_sub_commands {H : Type} (names : List String) : List (SubCommand H) :=
  names.map (fun n => SubCommand.mk n [] [] "" none)

/-- `State::update_server_names`, tree part: replace the sub-commands of the
first command named `select` with the generated nodes.  The Rust code
`find(..).unwrap()` panics when no such command exists; `none` models that
panic. -/
def update_server_names {H : Type} (cmds : List (Command H)) (names : List String) :
    Option (List (Command H)) :=
  match cmds.findIdx? (fun c => c.name = "select") with
  | none => none
  | some i =>
    some (cmds.mapIdx (fun j c =>
      if j = i then { c with subCommands := select_sub_commands names } else c))

/-- The positional read of `CommandManager::select_handler`
(`src/command.rs` lines 390-404 / `src/system/command.rs` lines 629-649):
the server name is `tokens.get(1)`, with the error string when absent. -/
def select_handler_server_name (tokens : List String) : Except String String :=
  match tokens[1]? with
  | none => .error "No server name provided."
  | some n => .ok n

/-! ## Batch mod update (`list_mods` of `src/lib.rs` with
`download_files` of `src/network/mod.rs`) -/

/-- `download_files` of `src/network/mod.rs` (lines 39-55): all downloads
are spawned, then joined with `result??`, surfacing the first error (the
completion order of the join set is modelled as list order) and `Ok(())`
when every download succeeds.  The outcome of each spawned download is an
input of the model. -/
def download_files (results : List (Except String Unit)) : Except String Unit :=
  match results with
  | [] => .ok ()
  | .ok _ :: rest => download_files rest
  | .error e :: _ => .error e

/-- Observable outcome of the update tail of `list_mods`. -/
structure UpdateRun where
  attemptedDeletions : Nat
  loggedDeletionFailures : List String
  result : Except String Unit
deriving DecidableEq, Repr

/-- The update tail of `list_mods` in `src/lib.rs` (lines 210-228):
`network::download_files(client, downloads).await?` followed by the
deletion loop over the superseded jars, which logs
`Failed to delete old jar file` on failure and never aborts.  The outcomes
of the spawned downloads and of the `fs::remove_file` calls are inputs of
the model; `attemptedDeletions` counts the `remove_file` calls made. -/
def list_mods_update (dlResults delResults : List (Except String Unit)) : UpdateRun :=
  match download_files dlResults with
  | .error e => { attemptedDeletions := 0, loggedDeletionFailures := [], result := .error e }
  | .ok _ =>
    { attemptedDeletions := delResults.length,
      loggedDeletionFailures :=
        delResults.filterMap (fun r =>
          match r with
          | .error e => some ("Failed to delete old jar file: " ++ e)
          | .ok _ => none),
      result := .ok () }

/-! ## The interactive context engine

`Context` is declared in `src/system/state.rs` (lines 22-28); the REPL loop
that consumes it is not part of the sources, so the per-line treatment is
modelled from the spec, sections 3 and 4.4. -/

/-- `Context` of `src/system/state.rs`: `Default`, or `MinecraftServer`
holding the handle to the child process stdin.  The handle is modelled by
the list of strings written and flushed to it so far. -/
inductive Context where
  | default
  | minecraftServer (written : List String)
deriving DecidableEq, Repr

/-- Modelled from the spec: the events the loop observes — an input line, a
context-change signal published by a handler through the side channel, and
the end of the attached child process. -/
inductive ReplEvent where
  | line (s : String)
  | attachSignal
  | childExited
deriving DecidableEq, Repr

/-- Modelled from the spec: the externally visible effect of one loop
iteration. `dispatched r` is a tokenize-and-dispatch of the line through
`CommandManager::execute`; `forwarded d` is a verbatim write of `d` to the
child stdin followed by a flush; `silent` is a pure context transition. -/
inductive ReplAction (H : Type) where
  | dispatched (r : Option (Except String (Option (H × List String))))
  | forwarded (d : String)
  | silent

/-- Modelled from the spec (sections 3, 4.4): one step of the context state
machine.  In `Default` a line is tokenized and dispatched; while
`MinecraftServer` is active a line is written verbatim plus a newline to
the child stdin handle and flushed, with no tokenization and no dispatch;
the context reverts to `Default` only when the child process ends. -/
def replStep {H : Type} (cmds : List (Command H)) :
    Context → ReplEvent → Context × ReplAction H
  | .default, .line s => (.default, .dispatched (executeSystem cmds s))
  | .default, .attachSignal => (.minecraftServer [], .silent)
  | .default, .childExited => (.default, .silent)
  | .minecraftServer w, .line s =>
      (.minecraftServer (w ++ [s ++ "\n"]), .forwarded (s ++ "\n"))
  | .minecraftServer w, .attachSignal => (.minecraftServer w, .silent)
  | .minecraftServer _, .childExited => (.default, .silent)

/-- The context reached after a list of events. -/
def replRun {H : Type} (cmds : List (Command H)) (ctx : Context)
    (events : List ReplEvent) : Context :=
  events.foldl (fun c e => (replStep cmds c e).1) ctx

/-! ## Helper lemmas -/

theorem findIdx?_append_first {α : Type} (p : α → Bool) (l1 l2 : List α) (a : α)
    (hp : p a = true) (h1 : ∀ x ∈ l1, p x = false) :
    ∀ i, (l1 ++ a :: l2).findIdx? p i = some (i + l1.length) := by
  induction l1 with
  | nil => intro i; simp [List.findIdx?_cons, hp]
  | cons x l1 ih =>
    intro i
    have hx : p x = false := h1 x (by simp)
    simp only [List.cons_append, List.findIdx?_cons, hx]
    have := ih (fun y hy => h1 y (by simp [hy])) (i + 1)
    simpa [Nat.add_assoc, Nat.add_comm 1 l1.length] using this

theorem download_files_eq_ok_iff (dl : List (Except String Unit)) :
    download_files dl = .ok () ↔ ∀ r ∈ dl, r = .ok () := by
  induction dl with
  | nil => simp [download_files]
  | cons r rest ih =>
    cases r with
    | ok u => cases u; simpa [download_files] using ih
    | error e => simp [download_files]

/-! ## Claim C8 -/

/-- Claim C8: for every token list and option name N, looking up the value
of option N returns the token immediately following the occurrence of
`--N`; if there is no following token, or the following token itself starts
with `--`, the lookup yields the value-missing error rather than treating
that token as the value.  The token list is presented as
`l1 ++ ("--" ++ name) :: l2` with no earlier occurrence in `l1`, so `l2`
holds the tokens after the occurrence. -/
theorem c8_option_value (name : String) (l1 l2 : List String)
    (h1 : ∀ t ∈ l1, ¬t = "--" ++ name) :
    (l2 = [] →
      get_option_value name (l1 ++ ("--" ++ name) :: l2) = .error .missingValue) ∧
    (∀ v rest, l2 = v :: rest → strStartsWith v "--" = true →
      get_option_value name (l1 ++ ("--" ++ name) :: l2) = .error .missingValue) ∧
    (∀ v rest, l2 = v :: rest → strStartsWith v "--" = false →
      get_option_value name (l1 ++ ("--" ++ name) :: l2) = .ok v) := by
  have hidx : (l1 ++ ("--" ++ name) :: l2).findIdx?
      (fun t => t = "--" ++ name) = some l1.length := by
    have := findIdx?_append_first (fun t => decide (t = "--" ++ name)) l1 l2
      ("--" ++ name) (by simp) (fun x hx => by simp [h1 x hx]) 0
    simpa using this
  have hget : (l1 ++ ("--" ++ name) :: l2)[l1.length + 1]? = l2[0]? := by
    rw [List.getElem?_append_right (by omega)]
    simp
  refine ⟨?_, ?_, ?_⟩
  · intro h0
    subst h0
    simp [get_option_value, hidx, hget]
  · intro v rest h0 hsw
    subst h0
    simp [get_option_value, hidx, hget, hsw]
  · intro v rest h0 hsw
    subst h0
    simp [get_option_value, hidx, hget, hsw]

/-- Concrete instance of `c8_option_value`: the value of `--game` in
`update server --game 1.20 --loader`, and the missing-value outcomes. -/
theorem c8_witness :
    get_option_value "game" (["update", "server"] ++ ("--" ++ "game") :: ["1.20"]) =
      .ok "1.20" ∧
    get_option_value "loader" (["update", "server"] ++ ("--" ++ "loader") :: []) =
      .error .missingValue ∧
    get_option_value "game" ([] ++ ("--" ++ "game") :: ["--loader", "x"]) =
      .error .missingValue :=
  ⟨(c8_option_value "game" ["update", "server"] ["1.20"] (by decide)).2.2 "1.20" []
      rfl (by decide),
    (c8_option_value "loader" ["update", "server"] [] (by decide)).1 rfl,
    (c8_option_value "game" [] ["--loader", "x"] (by decide)).2.1 "--loader" ["x"]
      rfl (by decide)⟩

/-! ## Claim C4 -/

/-- Claim C4 counterexample: with three pending updates where the second
download fails (and both deletions would succeed), the code attempts no
deletion at all — `download_files` surfaces the error and the `?` operator
returns from `list_mods` before the deletion loop — contradicting the
claim that the two superseded files whose downloads succeeded are still
deleted. -/
theorem c4_counterexample :
    list_mods_update [.ok (), .error "dl2 failed", .ok ()] [.ok (), .ok ()] =
      { attemptedDeletions := 0, loggedDeletionFailures := [],
        result := .error "dl2 failed" } := rfl

/-- Claim C4 (amended): if any download in the batch fails, `list_mods`
aborts before the deletion loop — no deletion of superseded jars is
attempted — and reports the download failure; only when every download
succeeds does it attempt deletion of all superseded files, logging each
deletion failure without aborting the remaining deletions and still
reporting success. -/
theorem c4_batch_update_amended (dl del : List (Except String Unit)) :
    ((∃ e, download_files dl = .error e) ↔ ¬∀ r ∈ dl, r = .ok ()) ∧
    (∀ e, download_files dl = .error e →
      (list_mods_update dl del).attemptedDeletions = 0 ∧
      (list_mods_update dl del).result = .error e) ∧
    (download_files dl = .ok () →
      (list_mods_update dl del).attemptedDeletions = del.length ∧
      (list_mods_update dl del).result = .ok () ∧
      (list_mods_update dl del).loggedDeletionFailures =
        del.filterMap (fun r =>
          match r with
          | .error e => some ("Failed to delete old jar file: " ++ e)
          | .ok _ => none)) := by
  refine ⟨?_, ?_, ?_⟩
  · constructor
    · rintro ⟨e, he⟩ hall
      rw [(download_files_eq_ok_iff dl).mpr hall] at he
      cases he
    · intro hnot
      cases hres : download_files dl with
      | ok u =>
        cases u
        exact absurd ((download_files_eq_ok_iff dl).mp hres) hnot
      | error e => exact ⟨e, rfl⟩
  · intro e he
    simp [list_mods_update, he]
  · intro hok
    simp [list_mods_update, hok]

/-- Concrete instance of `c4_batch_update_amended`: one failing download
blocks both deletions; with all downloads succeeding, both deletions are
attempted and the one deletion failure is logged without aborting. -/
theorem c4_witness :
    ((list_mods_update [.ok (), .error "boom", .ok ()] [.ok (), .ok ()]).attemptedDeletions = 0 ∧
      (list_mods_update [.ok (), .error "boom", .ok ()] [.ok (), .ok ()]).result =
        .error "boom") ∧
    ((list_mods_update [.ok (), .ok ()] [.error "locked", .ok ()]).attemptedDeletions = 2 ∧
      (list_mods_update [.ok (), .ok ()] [.error "locked", .ok ()]).result = .ok () ∧
      (list_mods_update [.ok (), .ok ()] [.error "locked", .ok ()]).loggedDeletionFailures =
        ["Failed to delete old jar file: locked"]) :=
  ⟨(c4_batch_update_amended [.ok (), .error "boom", .ok ()] [.ok (), .ok ()]).2.1
      "boom" rfl,
    by
      have := (c4_batch_update_amended [.ok (), .ok ()] [.error "locked", .ok ()]).2.2 rfl
      simpa using this⟩

/-! ## Claim C5 -/

/-- Claim C5 (code bug): the dispatcher of `src/command.rs` is not total in
the input line.  The empty line tokenizes to an empty token list and the
`tokens[0]` index panics (modelled by `none`); the later iteration in
`src/system/command.rs` guards exactly this case and returns success, and a
malformed quoting line is surfaced as the parse-failure error by both. -/
theorem c5_empty_line_dispatch :
    tokenize "" = .ok [] ∧
    executeLegacy create_commands "" = none ∧
    executeSystem create_commands "" = some (.ok none) ∧
    executeLegacy create_commands "\"ab" = some (.error "Failed to parse command") ∧
    executeSystem create_commands "\"ab" = some (.error "Failed to parse command") :=
  ⟨rfl, rfl, rfl, rfl, rfl⟩

/-! ## Claim C7 -/

/-- Claim C7: for every line and cursor position the completion function
returns without raising an error: when tokenizing the sliced prefix fails,
or when the token list is empty, the result degrades to no candidates
instead of an error. -/
theorem c7_completion_never_fatal {H : Type} (cmds : List (Command H))
    (line : String) (pos : Nat) :
    (∀ e, tokenize (String.mk (line.data.take pos)) = .error e →
      complete cmds line pos = (0, [])) ∧
    (tokenize (String.mk (line.data.take pos)) = .ok [] →
      complete cmds line pos = (0, [])) := by
  constructor
  · intro e he
    simp [complete, he]
  · intro he
    simp [complete, he]

/-- Concrete instance of `c7_completion_never_fatal`: an unterminated quote
under the cursor and a whitespace-only prefix both yield no candidates. -/
theorem c7_witness :
    complete create_commands "\"ab" 3 = (0, []) ∧
    complete create_commands "   " 3 = (0, []) :=
  ⟨(c7_completion_never_fatal create_commands "\"ab" 3).1 .unterminatedQuote rfl,
    (c7_completion_never_fatal create_commands "   " 3).2 rfl⟩

/-! ## Claim C1 -/

/-- The chain of matched nodes visited by the deepest-match walk, from the
shallowest (a child of the top-level command) down to the deepest. -/
def matchedChain {H : Type} : List (SubCommand H) → List String → List (SubCommand H)
  | [], _ => []
  | SubCommand.mk n subs opts hp hd :: rest, tokens =>
    if tokens.contains n then
      SubCommand.mk n subs opts hp hd :: matchedChain subs tokens
    else matchedChain rest tokens

/-- Modelled from the spec (section 4.2, steps 3 and 4), for comparison
with the code: resolution uses the deepest matched node's handler if
present, otherwise walks up through every shallower ancestor on the
matched chain, otherwise the top-level command's handler, and fails with
the no-handler error only when no node anywhere on the chain has one. -/
def specResolveHandler {H : Type} (cmds : List (Command H)) (tokens : List String) :
    Option (Except String (H × List String)) :=
  match tokens with
  | [] => none
  | t0 :: _ =>
    match cmds.find? (fun c => c.name = t0) with
    | none => some (.error ("Unknown command: " ++ t0))
    | some cmd =>
      match ((matchedChain cmd.subCommands tokens).reverse.findSome?
              SubCommand.handler).orElse (fun _ => cmd.handler) with
      | none => some (.error "Command does not have a handler.")
      | some h => some (.ok (h, tokens))

/-- A three-level tree separating the code from the spec's words: top-level
`a` without handler, child `b` with a handler, grandchild `c` without. -/
def chainExampleCommands : List (Command Nat) :=
  [{ name := "a",
     subCommands := [SubCommand.mk "b" [SubCommand.mk "c" [] [] "" none] [] "" (some 1)],
     options := [], help := "", handler := none }]

/-- Claim C1 counterexample: on tokens `a b c` the deepest matched node `c`
has no handler and the top-level command has none either, so the code
fails with the no-handler error — even though the next-shallower ancestor
`b` on the matched chain carries a handler, which the claim says is chosen
(as the spec-modelled resolver indeed does). -/
theorem c1_counterexample :
    dispatchTokens chainExampleCommands ["a", "b", "c"] =
      some (.error "Command does not have a handler.") ∧
    specResolveHandler chainExampleCommands ["a", "b", "c"] =
      some (.ok (1, ["a", "b", "c"])) := by
  constructor
  · simp [dispatchTokens, chainExampleCommands, find_deepest_subcommand,
      SubCommand.handler, SubCommand.subCommands, List.find?]
  · simp [specResolveHandler, chainExampleCommands, matchedChain,
      SubCommand.handler, SubCommand.subCommands, List.find?, List.findSome?]

/-- Claim C1 (amended): the handler chosen for dispatch is the deepest
matched node's handler if present, otherwise the top-level command's
handler — intermediate ancestors on the matched chain are never consulted —
and when neither carries a handler, dispatch fails with the no-handler
error and no handler is invoked; with no matched sub-command at all, the
top-level command's handler is used under the same rule. -/
theorem c1_handler_fallback (H : Type) (cmds : List (Command H)) (t0 : String)
    (rest : List String) (cmd : Command H)
    (hc : cmds.find? (fun c => c.name = t0) = some cmd) :
    (∀ d, find_deepest_subcommand cmd.subCommands (t0 :: rest) = some d →
      (∀ h, d.handler = some h →
        dispatchTokens cmds (t0 :: rest) = some (.ok (h, t0 :: rest))) ∧
      (d.handler = none → ∀ h, cmd.handler = some h →
        dispatchTokens cmds (t0 :: rest) = some (.ok (h, t0 :: rest))) ∧
      (d.handler = none → cmd.handler = none →
        dispatchTokens cmds (t0 :: rest) =
          some (.error "Command does not have a handler."))) ∧
    (find_deepest_subcommand cmd.subCommands (t0 :: rest) = none →
      (∀ h, cmd.handler = some h →
        dispatchTokens cmds (t0 :: rest) = some (.ok (h, t0 :: rest))) ∧
      (cmd.handler = none →
        dispatchTokens cmds (t0 :: rest) =
          some (.error "Command does not have a handler."))) := by
  constructor
  · intro d hd
    refine ⟨?_, ?_, ?_⟩
    · intro h hh
      simp [dispatchTokens, hc, hd, hh, Option.orElse]
    · intro hnone h hh
      simp [dispatchTokens, hc, hd, hnone, hh, Option.orElse]
    · intro hnone hnone2
      simp [dispatchTokens, hc, hd, hnone, hnone2, Option.orElse]
  · intro hd
    constructor
    · intro h hh
      simp [dispatchTokens, hc, hd, hh]
    · intro hnone
      simp [dispatchTokens, hc, hd, hnone]

/-- Concrete instance of `c1_handler_fallback`: `update server` runs the
`server` sub-command's handler; `list` alone (a matched chain of length
zero and a top-level command without handler) fails with the no-handler
error. -/
theorem c1_witness :
    dispatchTokens create_commands ["update", "server"] =
      some (.ok (HandlerTag.updateServer, ["update", "server"])) ∧
    dispatchTokens create_commands ["list"] =
      some (.error "Command does not have a handler.") := by
  constructor
  · have hc : create_commands.find? (fun c => c.name = "update") = some
        { name := "update",
          subCommands :=
            [ SubCommand.mk "server" []
                [ { name := "game", help := "The Minecraft version." },
                  { name := "loader", help := "The Fabric Loader version." },
                  { name := "installer", help := "The Fabric Installer version." },
                  { name := "latest-stable",
                    help := "Use the latest stable versions for the unspecified." } ]
                "Update the server executable jar to the specified versions."
                (some .updateServer) ],
          options := [], help := "", handler := none } := by
      simp [create_commands, List.find?]
    refine ((c1_handler_fallback HandlerTag create_commands "update" ["server"]
      _ hc).1
        (SubCommand.mk "server" []
          [ { name := "game", help := "The Minecraft version." },
            { name := "loader", help := "The Fabric Loader version." },
            { name := "installer", help := "The Fabric Installer version." },
            { name := "latest-stable",
              help := "Use the latest stable versions for the unspecified." } ]
          "Update the server executable jar to the specified versions."
          (some .updateServer))
        ?_).1 .updateServer rfl
    simp [find_deepest_subcommand]
  · have hc : create_commands.find? (fun c => c.name = "list") = some
        { name := "list",
          subCommands :=
            [ SubCommand.mk "servers" [] [] "List the server names."
                (some .listServers),
              SubCommand.mk "mods" []
                [ { name := "update", help := "Whether to update the mod if available." } ]
                "List installed mods with their current versions and check for updates on Modrinth."
                (some .listMods) ],
          options := [], help := "", handler := none } := by
      simp [create_commands, List.find?]
    refine ((c1_handler_fallback HandlerTag create_commands "list" [] _ hc).2
      ?_).2 rfl
    simp [find_deepest_subcommand]

/-! ## Claim C10 -/

/-- The commands list after `update_server_names` rebuilds the `select`
sub-tree: the unique command named `select` carries one child per server
name and everything else is unchanged. -/
def updatedCommands (names : List String) : List (Command HandlerTag) :=
  create_commands.map (fun c =>
    if c.name = "select" then { c with subCommands := select_sub_commands names } else c)

theorem find_deepest_of_childless {H : Type} (subs : List (SubCommand H))
    (tokens : List String) (hchildless : ∀ s ∈ subs, s.subCommands = []) :
    ∀ d, find_deepest_subcommand subs tokens = some d → d ∈ subs := by
  induction subs with
  | nil => intro d hd; simp [find_deepest_subcommand] at hd
  | cons s rest ih =>
    intro d hd
    obtain ⟨n, ssubs, opts, hp, hdl⟩ := s
    have hs : ssubs = [] :=
      hchildless (SubCommand.mk n ssubs opts hp hdl) (by simp)
    subst hs
    rw [find_deepest_subcommand] at hd
    by_cases hcont : tokens.contains n
    · simp only [hcont, if_true, find_deepest_subcommand] at hd
      exact (Option.some.inj hd) ▸ List.mem_cons_self _ _
    · simp only [hcont, if_false, Bool.false_eq_true] at hd
      exact List.mem_cons_of_mem _ (ih (fun x hx => hchildless x (by simp [hx])) d hd)

/-- Claim C10: every sub-command node generated at runtime for the `select`
command carries no handler, no children and no options; consequently, for
every token list beginning with `select`, resolution falls back to the
top-level `select` command's handler — independently of the dynamic server
names — and that handler reads the server name positionally from the token
immediately after `select`. -/
theorem c10_select_dynamic_resolution (names : List String) (rest : List String) :
    (∀ s ∈ select_sub_commands (H := HandlerTag) names,
      s.handler = none ∧ s.subCommands = [] ∧ s.options = []) ∧
    update_server_names create_commands names = some (updatedCommands names) ∧
    dispatchTokens (updatedCommands names) ("select" :: rest) =
      some (.ok (HandlerTag.select, "select" :: rest)) ∧
    (∀ n, ("select" :: rest)[1]? = some n →
      select_handler_server_name ("select" :: rest) = .ok n) ∧
    (rest = [] →
      select_handler_server_name ("select" :: rest) =
        .error "No server name provided.") := by
  refine ⟨?_, ?_, ?_, ?_, ?_⟩
  · intro s hs
    simp only [select_sub_commands, List.mem_map] at hs
    obtain ⟨n, _, rfl⟩ := hs
    exact ⟨rfl, rfl, rfl⟩
  · rfl
  · have hsel : (updatedCommands names).find?
        (fun c => c.name = "select") = some
          { name := "select", subCommands := select_sub_commands names, options := [],
            help := "Select a server from the servers list to operate on.",
            handler := some .select } := by
      simp [updatedCommands, create_commands, List.find?]
    rw [dispatchTokens, hsel]
    cases hdeep : find_deepest_subcommand
        (select_sub_commands (H := HandlerTag) names) ("select" :: rest) with
    | none => simp [hdeep]
    | some d =>
      have hmem := find_deepest_of_childless _ _
        (fun s hs => by
          simp only [select_sub_commands, List.mem_map] at hs
          obtain ⟨n, _, rfl⟩ := hs
          rfl) d hdeep
      have hnone : d.handler = none := by
        simp only [select_sub_commands, List.mem_map] at hmem
        obtain ⟨n, _, rfl⟩ := hmem
        rfl
      simp [hdeep, hnone, Option.orElse]
  · intro n hn
    simp only [List.getElem?_cons_succ] at hn
    simp [select_handler_server_name, hn]
  · intro h0
    subst h0
    rfl

/-- Concrete instance of `c10_select_dynamic_resolution` at two server
names, with the second one selected by the token after `select`. -/
theorem c10_witness :
    dispatchTokens (updatedCommands ["alpha", "beta"]) ["select", "beta"] =
      some (.ok (HandlerTag.select, ["select", "beta"])) ∧
    select_handler_server_name ["select", "beta"] = .ok "beta" :=
  ⟨(c10_select_dynamic_resolution ["alpha", "beta"] ["beta"]).2.2.1,
    (c10_select_dynamic_resolution ["alpha", "beta"] ["beta"]).2.2.2.1 "beta" rfl⟩

/-! ## Claim C3 -/

/-- The per-iteration effects of a run of the loop over a list of events. -/
def replActions {H : Type} (cmds : List (Command H)) :
    Context → List ReplEvent → List (ReplAction H)
  | _, [] => []
  | ctx, e :: es => (replStep cmds ctx e).2 :: replActions cmds (replStep cmds ctx e).1 es

theorem replRun_take_succ {H : Type} (cmds : List (Command H)) :
    ∀ (events : List ReplEvent) (ctx : Context) (i : Nat) (ev : ReplEvent),
      events[i]? = some ev →
      replRun cmds ctx (events.take (i + 1)) =
        (replStep cmds (replRun cmds ctx (events.take i)) ev).1 := by
  intro events
  induction events with
  | nil => intro ctx i ev hev; simp at hev
  | cons e es ih =>
    intro ctx i ev hev
    cases i with
    | zero =>
      simp only [List.getElem?_cons_zero, Option.some.injEq] at hev
      subst hev
      simp [replRun]
    | succ j =>
      simp only [List.getElem?_cons_succ] at hev
      simpa [replRun] using ih (replStep cmds ctx e).1 j ev hev

theorem replActions_getElem {H : Type} (cmds : List (Command H)) :
    ∀ (events : List ReplEvent) (ctx : Context) (i : Nat) (ev : ReplEvent),
      events[i]? = some ev →
      (replActions cmds ctx events)[i]? =
        some ((replStep cmds (replRun cmds ctx (events.take i)) ev).2) := by
  intro events
  induction events with
  | nil => intro ctx i ev hev; simp at hev
  | cons e es ih =>
    intro ctx i ev hev
    cases i with
    | zero =>
      simp only [List.getElem?_cons_zero, Option.some.injEq] at hev
      subst hev
      simp [replActions, replRun]
    | succ j =>
      simp only [List.getElem?_cons_succ] at hev
      simpa [replActions, replRun] using ih (replStep cmds ctx e).1 j ev hev

/-- Claim C3: while the attached-process context is active
(`Context::MinecraftServer` holding the child stdin handle), no input line
is tokenized or dispatched as a command — the iteration's effect is the
verbatim write of the line plus a newline to the handle, flushed — the
context stays attached across input lines, and the context reverts to
`Default` only on the event that the child process ends. -/
theorem c3_attached_context_raw_forwarding {H : Type} (cmds : List (Command H))
    (ctx0 : Context) (events : List ReplEvent) (i : Nat) (ev : ReplEvent)
    (w : List String) (hev : events[i]? = some ev)
    (hctx : replRun cmds ctx0 (events.take i) = .minecraftServer w) :
    (∀ s, ev = .line s →
      (replActions cmds ctx0 events)[i]? = some (.forwarded (s ++ "\n")) ∧
      (∀ r, (replActions cmds ctx0 events)[i]? ≠ some (.dispatched r)) ∧
      replRun cmds ctx0 (events.take (i + 1)) =
        .minecraftServer (w ++ [s ++ "\n"])) ∧
    (replRun cmds ctx0 (events.take (i + 1)) = .default → ev = .childExited) := by
  have hact := replActions_getElem cmds events ctx0 i ev hev
  have hrun := replRun_take_succ cmds events ctx0 i ev hev
  rw [hctx] at hact hrun
  constructor
  · intro s hs
    subst hs
    refine ⟨by simpa [replStep] using hact, ?_, by simpa [replStep] using hrun⟩
    intro r hr
    rw [hact] at hr
    simp [replStep] at hr
  · intro hdef
    rw [hrun] at hdef
    cases ev with
    | line s => simp [replStep] at hdef
    | attachSignal => simp [replStep] at hdef
    | childExited => rfl

/-- Concrete instance of `c3_attached_context_raw_forwarding`: after a
handler publishes the attach signal, the next typed line `stop` is
forwarded verbatim plus a newline to the child stdin handle and the
context stays attached. -/
theorem c3_witness :
    (replActions create_commands Context.default
        [ReplEvent.attachSignal, ReplEvent.line "stop", ReplEvent.childExited])[1]? =
      some (.forwarded ("stop" ++ "\n")) ∧
    replRun create_commands Context.default
        ([ReplEvent.attachSignal, ReplEvent.line "stop",
          ReplEvent.childExited].take 2) =
      Context.minecraftServer ([] ++ ["stop" ++ "\n"]) :=
  ⟨((c3_attached_context_raw_forwarding create_commands Context.default
      [ReplEvent.attachSignal, ReplEvent.line "stop", ReplEvent.childExited]
      1 (.line "stop") [] rfl rfl).1 "stop" rfl).1,
    ((c3_attached_context_raw_forwarding create_commands Context.default
      [ReplEvent.attachSignal, ReplEvent.line "stop", ReplEvent.childExited]
      1 (.line "stop") [] rfl rfl).1 "stop" rfl).2.2⟩

/-! ## Claim C2 -/

theorem contains_iff_mem {α : Type} [BEq α] [LawfulBEq α] (l : List α) (a : α) :
    l.contains a = true ↔ a ∈ l := List.elem_iff

/-- The first sub-command in declaration order whose name occurs anywhere in
the token list: the claim's selection rule at one level of the walk. -/
def FirstTokenMatch {H : Type} (tokens : List String) (subs : List (SubCommand H))
    (s : SubCommand H) : Prop :=
  ∃ l1 l2, subs = l1 ++ s :: l2 ∧ s.name ∈ tokens ∧ ∀ x ∈ l1, x.name ∉ tokens

/-- The claim's description of the walk: greedily descend through
first-in-declaration-order matches — a node matches when its name equals
any token anywhere in the list — and stop at the first level with no
matching child, returning the last matched node. -/
inductive DeepestMatch {H : Type} (tokens : List String) :
    List (SubCommand H) → SubCommand H → Prop where
  | stop : ∀ subs s, FirstTokenMatch tokens subs s →
      (∀ c ∈ s.subCommands, c.name ∉ tokens) → DeepestMatch tokens subs s
  | descend : ∀ subs s d, FirstTokenMatch tokens subs s →
      DeepestMatch tokens s.subCommands d → DeepestMatch tokens subs d

theorem FirstTokenMatch.cons {H : Type} {tokens : List String} {x : SubCommand H}
    {rest : List (SubCommand H)} {s : SubCommand H} (hx : x.name ∉ tokens)
    (h : FirstTokenMatch tokens rest s) : FirstTokenMatch tokens (x :: rest) s := by
  obtain ⟨l1, l2, rfl, hmem, hl1⟩ := h
  exact ⟨x :: l1, l2, rfl, hmem, by
    intro y hy
    rcases List.mem_cons.mp hy with rfl | hy2
    · exact hx
    · exact hl1 y hy2⟩

theorem DeepestMatch.cons_of_not_match {H : Type} {tokens : List String}
    {x : SubCommand H} {rest : List (SubCommand H)} {d : SubCommand H}
    (hx : x.name ∉ tokens) (h : DeepestMatch tokens rest d) :
    DeepestMatch tokens (x :: rest) d := by
  cases h with
  | stop subs s hfm hstop => exact .stop _ _ (hfm.cons hx) hstop
  | descend subs s d hfm hrec => exact .descend _ _ _ (hfm.cons hx) hrec

theorem find_deepest_eq_none_iff {H : Type} (tokens : List String)
    (subs : List (SubCommand H)) :
    find_deepest_subcommand subs tokens = none ↔ ∀ s ∈ subs, s.name ∉ tokens := by
  induction subs with
  | nil => simp [find_deepest_subcommand]
  | cons s rest ih =>
    obtain ⟨n, ss, o, hp, hd⟩ := s
    rw [find_deepest_subcommand]
    by_cases hc : tokens.contains n
    · have hn : n ∈ tokens := (contains_iff_mem tokens n).mp hc
      simp only [hc, if_true]
      constructor
      · intro h; cases h
      · intro hall
        exact absurd hn (hall (SubCommand.mk n ss o hp hd) (by simp))
    · have hn : n ∉ tokens := fun hmem => hc ((contains_iff_mem tokens n).mpr hmem)
      simp only [hc, if_false, Bool.false_eq_true]
      rw [ih]
      constructor
      · intro hall x hx
        rcases List.mem_cons.mp hx with rfl | hx2
        · exact hn
        · exact hall x hx2
      · intro hall x hx
        exact hall x (List.mem_cons_of_mem _ hx)

theorem find_deepest_of_first_match {H : Type} (tokens : List String) :
    ∀ (l1 : List (SubCommand H)) (s : SubCommand H) (l2 : List (SubCommand H)),
      s.name ∈ tokens → (∀ x ∈ l1, x.name ∉ tokens) →
      find_deepest_subcommand (l1 ++ s :: l2) tokens =
        some (match find_deepest_subcommand s.subCommands tokens with
              | none => s
              | some d => d) := by
  intro l1
  induction l1 with
  | nil =>
    intro s l2 hmem _
    obtain ⟨n, ss, o, hp, hd⟩ := s
    rw [List.nil_append, find_deepest_subcommand]
    have hc : tokens.contains n = true := (contains_iff_mem tokens n).mpr hmem
    simp only [hc, if_true]
    rfl
  | cons x l1 ih =>
    intro s l2 hmem hl1
    obtain ⟨n, ss, o, hp, hd⟩ := x
    rw [List.cons_append, find_deepest_subcommand]
    have hx : n ∉ tokens := by
      have := hl1 (SubCommand.mk n ss o hp hd) (by simp)
      simpa [SubCommand.name] using this
    have hc : tokens.contains n = false := by
      by_contra hcc
      exact hx ((contains_iff_mem tokens n).mp (by
        cases h : tokens.contains n
        · exact absurd h hcc
        · rfl))
    simp only [hc, if_false, Bool.false_eq_true]
    exact ih s l2 hmem (fun y hy => hl1 y (List.mem_cons_of_mem _ hy))

theorem deepest_match_of_find {H : Type} :
    ∀ (subs : List (SubCommand H)) (tokens : List String) (d : SubCommand H),
      find_deepest_subcommand subs tokens = some d → DeepestMatch tokens subs d := by
  intro subs tokens
  induction subs, tokens using find_deepest_subcommand.induct with
  | case1 tk => intro d hd; simp [find_deepest_subcommand] at hd
  | case2 n ss o hp hd rest tk hc ih =>
    intro d hfind
    rw [find_deepest_subcommand] at hfind
    simp only [hc, if_true] at hfind
    have hn : n ∈ tk := (contains_iff_mem tk n).mp hc
    have hfm : FirstTokenMatch tk (SubCommand.mk n ss o hp hd :: rest)
        (SubCommand.mk n ss o hp hd) := ⟨[], rest, rfl, hn, by simp⟩
    cases hinner : find_deepest_subcommand ss tk with
    | none =>
      rw [hinner] at hfind
      have hstop : ∀ c ∈ ss, c.name ∉ tk :=
        (find_deepest_eq_none_iff tk ss).mp hinner
      exact (Option.some.inj hfind) ▸ DeepestMatch.stop _ _ hfm hstop
    | some d2 =>
      rw [hinner] at hfind
      have := ih d2 hinner
      exact (Option.some.inj hfind) ▸ DeepestMatch.descend _ _ _ hfm this
  | case3 n ss o hp hd rest tk hc ih =>
    intro d hfind
    rw [find_deepest_subcommand] at hfind
    simp only [hc, if_false, Bool.false_eq_true] at hfind
    have hn : n ∉ tk := fun hmem => hc ((contains_iff_mem tk n).mpr hmem)
    exact DeepestMatch.cons_of_not_match hn (ih d hfind)

theorem find_of_deepest_match {H : Type} (tokens : List String) :
    ∀ (subs : List (SubCommand H)) (d : SubCommand H),
      DeepestMatch tokens subs d → find_deepest_subcommand subs tokens = some d := by
  intro subs d h
  induction h with
  | stop subs2 s hfm hstop =>
    obtain ⟨l1, l2, rfl, hmem, hl1⟩ := hfm
    rw [find_deepest_of_first_match tokens l1 s l2 hmem hl1]
    rw [(find_deepest_eq_none_iff tokens s.subCommands).mpr hstop]
  | descend subs2 s d2 hfm hrec ih =>
    obtain ⟨l1, l2, rfl, hmem, hl1⟩ := hfm
    rw [find_deepest_of_first_match tokens l1 s l2 hmem hl1]
    rw [ih]

/-- Claim C2: the deepest-match walk starts at the top-level command matched
by exact name equality against the first token; at each level it selects
the first child in declaration order whose name equals any token anywhere
in the full token list; it descends greedily without backtracking and stops
at the first level with no matching child, returning the last matched node
(`none` exactly when no child of the top level matches at all). -/
theorem c2_deepest_match_characterization {H : Type} (tokens : List String) :
    (∀ (subs : List (SubCommand H)) (d : SubCommand H),
      find_deepest_subcommand subs tokens = some d ↔ DeepestMatch tokens subs d) ∧
    (∀ subs : List (SubCommand H),
      find_deepest_subcommand subs tokens = none ↔ ∀ s ∈ subs, s.name ∉ tokens) ∧
    (∀ (cmds : List (Command H)) (t0 : String) (rest : List String) (cmd : Command H),
      tokens = t0 :: rest →
      (cmds.find? (fun c => c.name = t0) = some cmd ↔
        ∃ l1 l2, cmds = l1 ++ cmd :: l2 ∧ cmd.name = t0 ∧ ∀ c ∈ l1, ¬c.name = t0)) := by
  refine ⟨?_, find_deepest_eq_none_iff tokens, ?_⟩
  · intro subs d
    exact ⟨deepest_match_of_find subs tokens d, find_of_deepest_match tokens subs d⟩
  · intro cmds t0 rest cmd _
    rw [List.find?_eq_some]
    constructor
    · rintro ⟨hp, l1, l2, rfl, hl1⟩
      exact ⟨l1, l2, rfl, by simpa using hp, fun c hc => by simpa using hl1 c hc⟩
    · rintro ⟨l1, l2, rfl, hname, hl1⟩
      exact ⟨by simpa using hname, l1, l2, rfl, fun c hc => by simpa using hl1 c hc⟩

/-- Concrete instance of `c2_deepest_match_characterization`: with tokens
`update server --game`, the walk from the `update` command's children
reaches the `server` node, witnessed as a derivation of the claim-side
walk description. -/
theorem c2_witness :
    DeepestMatch ["update", "server", "--game"]
      [ SubCommand.mk "server" []
          [ { name := "game", help := "The Minecraft version." },
            { name := "loader", help := "The Fabric Loader version." },
            { name := "installer", help := "The Fabric Installer version." },
            { name := "latest-stable",
              help := "Use the latest stable versions for the unspecified." } ]
          "Update the server executable jar to the specified versions."
          (some HandlerTag.updateServer) ]
      (SubCommand.mk "server" []
        [ { name := "game", help := "The Minecraft version." },
          { name := "loader", help := "The Fabric Loader version." },
          { name := "installer", help := "The Fabric Installer version." },
          { name := "latest-stable",
            help := "Use the latest stable versions for the unspecified." } ]
        "Update the server executable jar to the specified versions."
        (some HandlerTag.updateServer)) :=
  ((c2_deepest_match_characterization ["update", "server", "--game"]).1 _ _).mp
    (by simp [find_deepest_subcommand])

/-! ## Claim C6 -/

theorem mem_suggest_subcommands_word {H : Type} (subs : List (SubCommand H))
    (lt : String) (input : List Char) (w : String) :
    w ∈ (suggest_subcommands subs (some lt) input).map SmartCandidate.word ↔
      ∃ s ∈ subs, s.name = w ∧
        (lastCharIsWhitespace input = true ∨ strStartsWith s.name lt = true) := by
  simp only [suggest_subcommands, List.map_map, List.mem_map, List.mem_filter,
    Function.comp, Bool.or_eq_true]
  constructor
  · rintro ⟨s, ⟨hs, hcond⟩, rfl⟩
    exact ⟨s, hs, rfl, hcond⟩
  · rintro ⟨s, hs, rfl, hcond⟩
    exact ⟨s, ⟨hs, hcond⟩, rfl⟩

theorem mem_suggest_options_word (opts : List CommandOption) (tokens : List String)
    (lt : String) (input : List Char) (w : String)
    (hlast : tokens.getLast? = some lt) :
    w ∈ (suggest_options opts tokens input).map SmartCandidate.word ↔
      ∃ o ∈ opts, w = "--" ++ o.name ∧
        (lastCharIsWhitespace input = true ∨ input.getLast? = some '-' ∨
          strStartsWith o.name
            (String.mk (lt.data.dropWhile (fun c => c = '-'))) = true) ∧
        ("--" ++ o.name) ∉ tokens := by
  simp only [suggest_options, List.map_map, List.mem_map, List.mem_filter,
    Function.comp, hlast, Bool.or_eq_true, Bool.not_eq_true',
    decide_eq_true_eq]
  constructor
  · rintro ⟨o, ⟨⟨ho, hcond⟩, habs⟩, rfl⟩
    refine ⟨o, ho, rfl, or_assoc.mp hcond, ?_⟩
    intro hmem
    rw [(contains_iff_mem tokens _).mpr hmem] at habs
    cases habs
  · rintro ⟨o, ho, rfl, hcond, habs⟩
    refine ⟨o, ⟨⟨ho, or_assoc.mpr hcond⟩, ?_⟩, rfl⟩
    cases hcont : tokens.contains ("--" ++ o.name)
    · rfl
    · exact absurd ((contains_iff_mem tokens _).mp hcont) habs

/-- Claim C6: for every completion query whose first token names an existing
top-level command, with the deepest-match resolution picking out a node:
when the resolved node has children, the candidate words are exactly the
children whose names start with the last token, except that a trailing
whitespace offers all children unfiltered; when the resolved node has no
children, the candidates are the node's options whose bare names start with
the last token stripped of leading dashes, all options are offered when the
last character is whitespace or a dash, and options already present
verbatim as `--name` among the tokens are excluded. -/
theorem c6_completion_candidates {H : Type} (cmds : List (Command H))
    (line : String) (pos : Nat) (t0 lt : String) (rest : List String)
    (cmd : Command H)
    (htok : tokenize (String.mk (line.data.take pos)) = .ok (t0 :: rest))
    (hlast : (t0 :: rest).getLast? = some lt)
    (hcmd : cmds.find? (fun c => c.name = t0) = some cmd) :
    (∀ node, find_deepest_subcommand cmd.subCommands (t0 :: rest) = some node →
      (node.subCommands ≠ [] → ∀ w : String,
        w ∈ (complete cmds line pos).2.map SmartCandidate.word ↔
          ∃ s ∈ node.subCommands, s.name = w ∧
            (lastCharIsWhitespace (line.data.take pos) = true ∨
              strStartsWith s.name lt = true)) ∧
      (node.subCommands = [] → ∀ w : String,
        w ∈ (complete cmds line pos).2.map SmartCandidate.word ↔
          ∃ o ∈ node.options, w = "--" ++ o.name ∧
            (lastCharIsWhitespace (line.data.take pos) = true ∨
              (line.data.take pos).getLast? = some '-' ∨
              strStartsWith o.name
                (String.mk (lt.data.dropWhile (fun c => c = '-'))) = true) ∧
            ("--" ++ o.name) ∉ (t0 :: rest))) ∧
    (find_deepest_subcommand cmd.subCommands (t0 :: rest) = none →
      (cmd.subCommands ≠ [] → ∀ w : String,
        w ∈ (complete cmds line pos).2.map SmartCandidate.word ↔
          ∃ s ∈ cmd.subCommands, s.name = w ∧
            (lastCharIsWhitespace (line.data.take pos) = true ∨
              strStartsWith s.name lt = true)) ∧
      (cmd.subCommands = [] → ∀ w : String,
        w ∈ (complete cmds line pos).2.map SmartCandidate.word ↔
          ∃ o ∈ cmd.options, w = "--" ++ o.name ∧
            (lastCharIsWhitespace (line.data.take pos) = true ∨
              (line.data.take pos).getLast? = some '-' ∨
              strStartsWith o.name
                (String.mk (lt.data.dropWhile (fun c => c = '-'))) = true) ∧
            ("--" ++ o.name) ∉ (t0 :: rest))) := by
  constructor
  · intro node hnode
    constructor
    · intro hne w
      have hie : node.subCommands.isEmpty = false := by
        cases hsc : node.subCommands with
        | nil => exact absurd hsc hne
        | cons a l => rfl
      have hc2 : (complete cmds line pos).2 =
          suggest_subcommands node.subCommands (some lt) (line.data.take pos) := by
        simp [complete, htok, hcmd, hnode, hie, hlast]
      rw [hc2]
      exact mem_suggest_subcommands_word node.subCommands lt (line.data.take pos) w
    · intro hsc w
      have hie : node.subCommands.isEmpty = true := by rw [hsc]; rfl
      have hc2 : (complete cmds line pos).2 =
          suggest_options node.options (t0 :: rest) (line.data.take pos) := by
        simp [complete, htok, hcmd, hnode, hie]
      rw [hc2]
      exact mem_suggest_options_word node.options (t0 :: rest) lt
        (line.data.take pos) w hlast
  · intro hnone
    constructor
    · intro hne w
      have hie : cmd.subCommands.isEmpty = false := by
        cases hsc : cmd.subCommands with
        | nil => exact absurd hsc hne
        | cons a l => rfl
      have hc2 : (complete cmds line pos).2 =
          suggest_subcommands cmd.subCommands (some lt) (line.data.take pos) := by
        simp [complete, htok, hcmd, hnone, hie, hlast]
      rw [hc2]
      exact mem_suggest_subcommands_word cmd.subCommands lt (line.data.take pos) w
    · intro hsc w
      have hie : cmd.subCommands.isEmpty = true := by rw [hsc]; rfl
      have hc2 : (complete cmds line pos).2 =
          suggest_options cmd.options (t0 :: rest) (line.data.take pos) := by
        simp [complete, htok, hcmd, hnone, hie]
      rw [hc2]
      exact mem_suggest_options_word cmd.options (t0 :: rest) lt
        (line.data.take pos) w hlast

/-- The tree of the repository's own completer test (`test_smart_completer`):
`cmd1` with child `sub1` carrying option `opt1`, plus a childless `cmd2`. -/
def completerTestCommands : List (Command Unit) :=
  [ { name := "cmd1",
      subCommands :=
        [SubCommand.mk "sub1" [] [{ name := "opt1", help := "" }] "" none],
      options := [], help := "", handler := none },
    { name := "cmd2", subCommands := [], options := [], help := "",
      handler := none } ]

/-- Concrete instance of `c6_completion_candidates`, mirroring the
repository's own completer test: on the tree with `cmd1 → sub1 → --opt1`,
the query `cmd1 s` offers `sub1`, and `cmd1 sub1 --opt1 --` offers no
option again (the present flag is excluded). -/
theorem c6_witness :
    ("sub1" ∈ (complete
        completerTestCommands
        "cmd1 s" 6).2.map SmartCandidate.word ↔
      ∃ s ∈ [SubCommand.mk (H := Unit) "sub1" []
          [{ name := "opt1", help := "" }] "" none],
        s.name = "sub1" ∧
          (lastCharIsWhitespace ("cmd1 s".data.take 6) = true ∨
            strStartsWith s.name "s" = true)) ∧
    ("--opt1" ∈ (complete
        completerTestCommands
        "cmd1 sub1 --opt1 --" 19).2.map SmartCandidate.word ↔
      ∃ o ∈ [({ name := "opt1", help := "" } : CommandOption)],
        "--opt1" = "--" ++ o.name ∧
          (lastCharIsWhitespace ("cmd1 sub1 --opt1 --".data.take 19) = true ∨
            ("cmd1 sub1 --opt1 --".data.take 19).getLast? = some '-' ∨
            strStartsWith o.name
              (String.mk ("--".data.dropWhile (fun c => c = '-'))) = true) ∧
          ("--" ++ o.name) ∉ ["cmd1", "sub1", "--opt1", "--"]) :=
  ⟨((c6_completion_candidates
      completerTestCommands
      "cmd1 s" 6 "cmd1" "s" ["s"]
      { name := "cmd1",
        subCommands :=
          [SubCommand.mk "sub1" [] [{ name := "opt1", help := "" }] "" none],
        options := [], help := "", handler := none }
      rfl rfl (by simp [List.find?])).2 (by simp [find_deepest_subcommand])).1
      (by simp) "sub1",
    ((c6_completion_candidates
      completerTestCommands
      "cmd1 sub1 --opt1 --" 19 "cmd1" "--" ["sub1", "--opt1", "--"]
      { name := "cmd1",
        subCommands :=
          [SubCommand.mk "sub1" [] [{ name := "opt1", help := "" }] "" none],
        options := [], help := "", handler := none }
      rfl rfl (by simp [List.find?])).1
      (SubCommand.mk "sub1" [] [{ name := "opt1", help := "" }] "" none)
      (by simp [find_deepest_subcommand])).2 rfl "--opt1"⟩

/-! ## Claim C9 -/

theorem ordinary_of_safe (c : Char) (h : isSafeChar c = true) :
    ¬c = singleQuoteChar ∧ ¬c = doubleQuoteChar ∧ ¬c = backslashChar ∧
      c.isWhitespace = false := by
  refine ⟨?_, ?_, ?_, ?_⟩
  · rintro rfl; exact absurd h (by decide)
  · rintro rfl; exact absurd h (by decide)
  · rintro rfl; exact absurd h (by decide)
  · cases hw : c.isWhitespace
    · rfl
    · exfalso
      simp only [Char.isWhitespace, Bool.or_eq_true, decide_eq_true_eq, or_assoc] at hw
      rcases hw with rfl | rfl | rfl | rfl <;> exact absurd h (by decide)

theorem step_normal_quote (curr : Option (List Char)) (cs : List Char) :
    tokAux .normal curr (singleQuoteChar :: cs) =
      tokAux .inSingle (some (curr.getD [])) cs := by
  cases curr <;> rw [tokAux, if_pos rfl]

theorem step_normal_backslash (curr : Option (List Char)) (cs : List Char) :
    tokAux .normal curr (backslashChar :: cs) = tokAux .escNormal curr cs := by
  cases curr <;>
    rw [tokAux, if_neg (by decide : ¬backslashChar = singleQuoteChar),
      if_neg (by decide : ¬backslashChar = doubleQuoteChar), if_pos rfl]

theorem step_esc_normal (curr : Option (List Char)) (c : Char) (cs : List Char) :
    tokAux .escNormal curr (c :: cs) = tokAux .normal (some (curr.getD [] ++ [c])) cs := by
  cases curr <;> rw [tokAux]

theorem step_normal_ws (p : List Char) (c : Char) (cs : List Char)
    (h1 : ¬c = singleQuoteChar) (h2 : ¬c = doubleQuoteChar) (h3 : ¬c = backslashChar)
    (h4 : c.isWhitespace = true) :
    tokAux .normal (some p) (c :: cs) = (tokAux .normal none cs).map (p :: ·) := by
  rw [tokAux, if_neg h1, if_neg h2, if_neg h3, if_pos h4]


theorem step_normal_ordinary (curr : Option (List Char)) (c : Char) (cs : List Char)
    (h1 : ¬c = singleQuoteChar) (h2 : ¬c = doubleQuoteChar) (h3 : ¬c = backslashChar)
    (h4 : c.isWhitespace = false) :
    tokAux .normal curr (c :: cs) = tokAux .normal (some (curr.getD [] ++ [c])) cs := by
  cases curr <;> rw [tokAux, if_neg h1, if_neg h2, if_neg h3, if_neg (by simp [h4])]

theorem step_inSingle_quote (curr : Option (List Char)) (cs : List Char) :
    tokAux .inSingle curr (singleQuoteChar :: cs) = tokAux .normal curr cs := by
  cases curr <;> rw [tokAux, if_pos rfl]

theorem step_inSingle_other (curr : Option (List Char)) (c : Char) (cs : List Char)
    (hc : ¬c = singleQuoteChar) :
    tokAux .inSingle curr (c :: cs) =
      tokAux .inSingle (some (curr.getD [] ++ [c])) cs := by
  cases curr <;> rw [tokAux, if_neg hc]

/-- Scanning a span of safe characters extends the current token. -/
theorem tokAux_ordinary_span (body : List Char)
    (hbody : ∀ c ∈ body, isSafeChar c = true) :
    ∀ (p cs : List Char),
      tokAux .normal (some p) (body ++ cs) = tokAux .normal (some (p ++ body)) cs := by
  induction body with
  | nil => intro p cs; simp
  | cons c body ih =>
    intro p cs
    obtain ⟨h1, h2, h3, h4⟩ := ordinary_of_safe c (hbody c (by simp))
    rw [List.cons_append, step_normal_ordinary (some p) c _ h1 h2 h3 h4]
    simp only [Option.getD_some]
    rw [ih (fun x hx => hbody x (by simp [hx])) (p ++ [c]) cs]
    simp

/-- Scanning the single-quote escaped body of a token, up to and including
the closing quote, extends the current token by the body verbatim. -/
theorem tokAux_quoted_span (body : List Char) :
    ∀ (p cs : List Char),
      tokAux .inSingle (some p) (escapeSingle body ++ singleQuoteChar :: cs) =
        tokAux .normal (some (p ++ body)) cs := by
  induction body with
  | nil =>
    intro p cs
    rw [show escapeSingle [] = [] from rfl, List.nil_append,
      step_inSingle_quote (some p) cs]
    simp
  | cons c body ih =>
    intro p cs
    by_cases hc : c = singleQuoteChar
    · subst hc
      rw [show escapeSingle (singleQuoteChar :: body) =
        singleQuoteChar :: backslashChar :: singleQuoteChar :: singleQuoteChar ::
          escapeSingle body from by simp [escapeSingle]]
      rw [List.cons_append, List.cons_append, List.cons_append, List.cons_append]
      rw [step_inSingle_quote (some p) _, step_normal_backslash (some p) _,
        step_esc_normal (some p) singleQuoteChar _]
      simp only [Option.getD_some]
      rw [step_normal_quote (some (p ++ [singleQuoteChar])) _]
      simp only [Option.getD_some]
      rw [ih (p ++ [singleQuoteChar]) cs]
      simp
    · rw [show escapeSingle (c :: body) = c :: escapeSingle body from by
        simp [escapeSingle, hc]]
      rw [List.cons_append, step_inSingle_other (some p) c _ hc]
      simp only [Option.getD_some]
      rw [ih (p ++ [c]) cs]
      simp

/-- Scanning one re-quoted token from a fresh token boundary yields exactly
that token as the current token. -/
theorem tokAux_quoteToken (t : List Char) (cs : List Char) :
    tokAux .normal none (quoteToken t ++ cs) = tokAux .normal (some t) cs := by
  by_cases hq : needsQuoting t = true
  · rw [show quoteToken t = singleQuoteChar :: (escapeSingle t ++ [singleQuoteChar])
      from by simp [quoteToken, hq]]
    rw [List.cons_append, step_normal_quote none _]
    simp only [Option.getD_none]
    have := tokAux_quoted_span t [] cs
    simpa using this
  · have hq2 : needsQuoting t = false := by
      cases h : needsQuoting t
      · rfl
      · exact absurd h hq
    have hsafe : ∀ x ∈ t, isSafeChar x = true := by
      intro x hx
      simp only [needsQuoting, Bool.or_eq_false_iff, List.any_eq_false] at hq2
      have := hq2.2 x hx
      cases h : isSafeChar x
      · rw [h] at this; simp at this
      · rfl
    have hne : t ≠ [] := by
      intro h0
      rw [h0] at hq2
      simp [needsQuoting] at hq2
    rw [show quoteToken t = t from by simp [quoteToken, hq2]]
    cases t with
    | nil => exact absurd rfl hne
    | cons c body =>
      obtain ⟨h1, h2, h3, h4⟩ := ordinary_of_safe c (hsafe c (by simp))
      rw [List.cons_append, step_normal_ordinary none c _ h1 h2 h3 h4]
      simp only [Option.getD_none, List.nil_append]
      rw [tokAux_ordinary_span body (fun x hx => hsafe x (by simp [hx])) [c] cs]
      rfl

/-- Character-level round trip: re-tokenizing a joined token list restores
the tokens, with no restriction on the token contents. -/
theorem tokAux_joinTokens (ts : List (List Char)) :
    tokAux .normal none (joinTokens ts) = .ok ts := by
  induction ts with
  | nil => rfl
  | cons t ts ih =>
    cases ts with
    | nil =>
      rw [show joinTokens [t] = quoteToken t ++ [] from by simp [joinTokens],
        tokAux_quoteToken t []]
      rfl
    | cons t2 rest =>
      simp only [joinTokens]
      rw [tokAux_quoteToken t (' ' :: joinTokens (t2 :: rest))]
      rw [tokAux]
      simp only [if_neg (by decide : ¬(' ' : Char) = singleQuoteChar),
        if_neg (by decide : ¬(' ' : Char) = doubleQuoteChar),
        if_neg (by decide : ¬(' ' : Char) = backslashChar),
        (by decide : (' ' : Char).isWhitespace = true), if_true]
      rw [ih]
      rfl

theorem tokenize_join (ts : List String) : tokenize (join ts) = .ok ts := by
  have hdata : (join ts).data = joinTokens (ts.map String.data) := rfl
  rw [tokenize, hdata, tokAux_joinTokens]
  simp only [Except.map, List.map_map]
  exact congrArg Except.ok (List.map_id'' (fun s => rfl) ts)

/-- Claim C9: tokenizer round trip.  For every token list containing no
embedded quote characters, tokenizing the joined line restores exactly the
original tokens; and for every line that tokenizes successfully,
re-tokenizing the joined token list is a fixed point
(`tokenize (join (tokenize x)) = tokenize x`). -/
theorem c9_tokenize_join_roundtrip :
    (∀ ts : List String,
      (∀ t ∈ ts, singleQuoteChar ∉ t.data ∧ doubleQuoteChar ∉ t.data) →
      tokenize (join ts) = .ok ts) ∧
    (∀ (x : String) (ts : List String), tokenize x = .ok ts →
      tokenize (join ts) = .ok ts) :=
  ⟨fun ts _ => tokenize_join ts, fun _ ts _ => tokenize_join ts⟩

/-- Concrete instance of `c9_tokenize_join_roundtrip`: a quote-free token
list with embedded whitespace survives the round trip, and the tokens of
`a "b c"` (whose second token has embedded whitespace) are a fixed point. -/
theorem c9_witness :
    tokenize (join ["ab", "c d"]) = .ok ["ab", "c d"] ∧
    tokenize (join ["a", "b c"]) = .ok ["a", "b c"] :=
  ⟨(c9_tokenize_join_roundtrip.1 ["ab", "c d"] (by decide)),
    (c9_tokenize_join_roundtrip.2 "a \"b c\"" ["a", "b c"] (by decide))⟩

end Mcerv
